import Mathlib

/-!
Verification development for two components of the ITK repository.

The first part embeds `Utilities/Cable/WrapTclFacility/wrapInstanceTable.cxx`
(the Tcl wrapping facility's instance table).  The `Instances` class is
translated statement by statement.  A thrown C++ exception is modelled by
returning the state as it stood at the throw point together with the
exception, so that atomicity-on-error is a meaningful statement about the
translation rather than an artifact of the embedding.  The registered
per-type delete functions are modelled by the set of registered type ids
plus an event log of invocations; the Tcl interpreter calls
(Tcl_DeleteCommand) act on external interpreter state and are outside the
table's own maps.

The second part models the SyN registration driver described by
`Modules/Registration/RegistrationMethodsv4/include/itkSyNImageRegistrationMethod.h`.
Only the class header is present in the repository snapshot; the algorithm
bodies (GenerateData, StartOptimization, ComputeUpdateField,
GaussianSmoothDisplacementField, the constructor) are not, so those
definitions are modelled from the spec, as stated in their doc comments.
-/

/-! ## Instance table: data model -/

abbrev Addr := Nat

abbrev TypeId := Nat

/-- Entry stored in the instance map: an object address together with its
cv-qualified type.  The table only ever compares types and reads the object
pointer, so the type is reduced to an id. -/
structure Reference where
  object : Addr
  cvQualifiedType : TypeId
deriving DecidableEq, Repr

/-- Exceptions thrown by the instance table (from wrapException.h). -/
inductive WrapException where
  | undefinedInstanceName : String → WrapException
  | undefinedObjectType : String → WrapException
deriving DecidableEq, Repr

/-- Remove every binding of key `k`, as `std::map::erase(k)` does for the
(unique-key) maps of the source. -/
def mapErase [BEq α] : List (α × β) → α → List (α × β)
  | [], _ => []
  | p :: t, k => if p.1 == k then mapErase t k else p :: mapErase t k

/-- Bind key `k` to `v`, replacing any previous binding, as
`std::map::operator[]` assignment does. -/
def mapSet [BEq α] (l : List (α × β)) (k : α) (v : β) : List (α × β) :=
  (k, v) :: mapErase l k

/-- State of the instance table (class `Instances`).  The Tcl interpreter
pointer `m_Interpreter` is external state and is not part of the model;
`deleteCalls` is an event log recording each invocation of a registered
delete function (type id and object address, in call order). -/
structure Instances where
  m_InstanceMap : List (String × Reference)
  m_AddressToNameMap : List (Addr × String)
  m_DeleteFunctionMap : List TypeId
  deleteCalls : List (TypeId × Addr)
deriving DecidableEq, Repr

/-! ## Instance table: operations -/

/-- Translation of `Instances::Exists`: `m_InstanceMap.count(name) > 0`. -/
def Instances.Exists (s : Instances) (name : String) : Bool :=
  (s.m_InstanceMap.lookup name).isSome

/-- Translation of `Instances::CheckExists`: throw
`_wrap_UndefinedInstanceNameException(name)` when the name is absent. -/
def Instances.CheckExists (s : Instances) (name : String) : Option WrapException :=
  if s.Exists name then none else some (.undefinedInstanceName name)

/-- Translation of `Instances::DeleteObject`.  Returns the state as left by
the call (unchanged at any throw point) and the thrown exception, if any.
The `Tcl_DeleteCommand` call at the end acts on the interpreter, not on the
table's maps. -/
def Instances.DeleteObject (s : Instances) (name : String) :
    Instances × Option WrapException :=
  match s.CheckExists name with
  | some e => (s, some e)
  | none =>
    match s.m_InstanceMap.lookup name with
    | none => (s, some (.undefinedInstanceName name))
    | some ref =>
      if s.m_DeleteFunctionMap.contains ref.cvQualifiedType then
        let s1 : Instances :=
          { s with m_AddressToNameMap := mapErase s.m_AddressToNameMap ref.object }
        let s2 : Instances :=
          { s1 with deleteCalls := s1.deleteCalls ++ [(ref.cvQualifiedType, ref.object)] }
        let s3 : Instances :=
          { s2 with m_InstanceMap := mapErase s2.m_InstanceMap name }
        (s3, none)
      else
        (s, some (.undefinedObjectType ""))

/-- The two map assignments at the end of `Instances::SetObject`. -/
def Instances.installMapping (s : Instances) (name : String) (object : Addr)
    (ty : TypeId) : Instances :=
  { s with
    m_InstanceMap := mapSet s.m_InstanceMap name ⟨object, ty⟩
    m_AddressToNameMap := mapSet s.m_AddressToNameMap object name }

/-- Translation of `Instances::SetObject`: delete any already-registered
instance of the name, then install the new mapping.  An exception thrown by
the inner `DeleteObject` propagates, skipping the installation. -/
def Instances.SetObject (s : Instances) (name : String) (object : Addr)
    (ty : TypeId) : Instances × Option WrapException :=
  if s.Exists name then
    match s.DeleteObject name with
    | (s1, some e) => (s1, some e)
    | (s1, none) => (s1.installMapping name object ty, none)
  else
    (s.installMapping name object ty, none)

/-- Translation of `Instances::GetObject` (no state mutation, so the thrown
exception is modelled with `Except`). -/
def Instances.GetObject (s : Instances) (name : String) : Except WrapException Addr :=
  match s.m_InstanceMap.lookup name with
  | none => .error (.undefinedInstanceName name)
  | some ref => .ok ref.object

/-- Translation of `Instances::GetType`. -/
def Instances.GetType (s : Instances) (name : String) : Except WrapException TypeId :=
  match s.m_InstanceMap.lookup name with
  | none => .error (.undefinedInstanceName name)
  | some ref => .ok ref.cvQualifiedType

/-- Translation of `Instances::RegisterDeleteFunction`. -/
def Instances.RegisterDeleteFunction (s : Instances) (ty : TypeId) : Instances :=
  { s with m_DeleteFunctionMap := ty :: s.m_DeleteFunctionMap }

/-! ## SyN driver: displacement fields

The algorithm bodies of `SyNImageRegistrationMethod` are not in the
repository snapshot (only the class header is), so the definitions below
are modelled from the spec.  The spec's images and fields are d-dimensional
(d in {2,3}); the properties under study are dimension-independent, so the
model uses a single grid axis with scalar displacements, measured in voxel
units of the current virtual domain.  Scalars are exact rationals. -/

/-- Modelled from the spec (section 3): a displacement field over a virtual
domain of `size` voxels; `val x` is the displacement stored at voxel `x`
(`val` is total on naturals; only indices below `size` are meaningful). -/
structure DField where
  size : Nat
  val : Nat → ℚ

/-- The all-zero displacement field of a given size. -/
def zeroDField (n : Nat) : DField := ⟨n, fun _ => 0⟩

/-- A field is identically zero (an identity transform). -/
def IsZeroField (D : DField) : Prop := ∀ x, D.val x = 0

/-- Clamp an integer index into the voxel range of a domain of `n` voxels. -/
def clampIdx (n : Nat) (i : Int) : Nat := if i < 0 then 0 else min i.toNat (n - 1)

/-- Modelled from the spec (section 4.5 needs only field sampling): sample a
field at a non-grid point by rounding to the nearest voxel, clamped to the
domain. -/
def sampleD (D : DField) (y : ℚ) : ℚ := D.val (clampIdx D.size (round y))

/-- Voxelwise sum of two fields (spec section 3: arithmetic is voxelwise). -/
def addF (D U : DField) : DField := ⟨D.size, fun x => D.val x + U.val x⟩

/-- Voxelwise scaling of a field. -/
def scaleF (c : ℚ) (D : DField) : DField := ⟨D.size, fun x => c * D.val x⟩

/-- Maximum vector magnitude of a field over its domain. -/
def maxMag (D : DField) : ℚ := ((List.range D.size).map fun x => |D.val x|).foldr max 0

/-- Maximum per-voxel difference of two fields over `n` voxels. -/
def maxDiff (A B : DField) (n : Nat) : ℚ :=
  ((List.range n).map fun x => |A.val x - B.val x|).foldr max 0

/-! ## SyN driver: inverse-consistency sub-routine (spec section 4.5) -/

/-- Modelled from the spec: the fixed-point tolerance for field inversion. -/
def epsInv : ℚ := 1/1000

/-- Modelled from the spec: the max-iteration cap of the inversion loop. -/
def invMaxIterations : Nat := 20

/-- One sweep of the fixed-point iteration of spec section 4.5:
the inverse becomes x maps to -D(x + Dinv(x)). -/
def invStep (D Dinv : DField) : DField :=
  ⟨D.size, fun x => -sampleD D ((x : ℚ) + Dinv.val x)⟩

/-- Modelled from the spec (section 4.5): iterate `invStep` until the max
per-voxel change falls below `epsInv` or the iteration cap is exhausted. -/
def invertAux (D : DField) : Nat → DField → DField
  | 0, Dinv => Dinv
  | fuel+1, Dinv =>
    let Dnew := invStep D Dinv
    if maxDiff Dnew Dinv D.size < epsInv then Dnew else invertAux D fuel Dnew

/-- Modelled from the spec (section 4.5): derive the inverse displacement
field of a forward field, starting the fixed-point loop from zero. -/
def invertDisplacementField (D : DField) : DField :=
  invertAux D invMaxIterations (zeroDField D.size)

/-! ## SyN driver: field smoother (spec section 4.3) -/

/-- Modelled from the spec: the number of elementary convolution passes
realizing a Gaussian of the given variance (each binomial pass has
variance 1/2, so a variance v calls for ceil(2v) passes). -/
def smoothRounds (variance : ℚ) : Nat := (Int.ceil (2 * variance)).toNat

/-- One separable convolution pass with the elementary binomial kernel
(1,2,1)/4, zero-flux boundary handling by index clamping. -/
def binomialPass (D : DField) : DField :=
  ⟨D.size, fun x =>
    (D.val (clampIdx D.size ((x : Int) - 1)) + 2 * D.val x +
      D.val (clampIdx D.size ((x : Int) + 1))) / 4⟩

/-- Spec section 4.1: displacement components normal to the image boundary
are clamped to zero after a smoothing pass (on a single axis the whole
boundary displacement is normal). -/
def clampBoundary (D : DField) : DField :=
  ⟨D.size, fun x => if x = 0 ∨ x = D.size - 1 then 0 else D.val x⟩

/-- Modelled from the spec (section 4.3, named after the header's virtual
member `GaussianSmoothDisplacementField`): variance 0 (or below) is the
identity operation; otherwise convolve with a Gaussian of that variance and
zero the boundary normal components. -/
def GaussianSmoothDisplacementField (D : DField) (variance : ℚ) : DField :=
  if variance ≤ 0 then D
  else clampBoundary (binomialPass^[smoothRounds variance] D)

/-! ## SyN driver: raw metric-gradient fields

The update-field builder queries the external metric derivative, whose
values may be non-finite; a possibly non-finite scalar is modelled as
`Option ℚ` with `none` for a non-finite value, and arithmetic on it is
strict in `none`. -/

/-- A raw (possibly non-finite) voxelwise field as produced by the external
metric derivative query. -/
abbrev RawField := Nat → Option ℚ

/-- One binomial convolution pass on a raw field; non-finite inputs
contaminate every output they touch. -/
def binomialPassO (n : Nat) (U : RawField) : RawField := fun x =>
  match U (clampIdx n ((x : Int) - 1)), U x, U (clampIdx n ((x : Int) + 1)) with
  | some a, some b, some c => some ((a + 2 * b + c) / 4)
  | _, _, _ => none

/-- Modelled from the spec (section 4.3): smoothing of a raw update field,
variance 0 (or below) being the identity operation. -/
def smoothRawField (n : Nat) (U : RawField) (variance : ℚ) : RawField :=
  if variance ≤ 0 then U else (binomialPassO n)^[smoothRounds variance] U

/-- All values of a raw field over the virtual domain are finite. -/
def allFinite (n : Nat) (U : RawField) : Bool :=
  (List.range n).all fun x => (U x).isSome

/-- Read an all-finite raw field back as a displacement field. -/
def extractField (n : Nat) (U : RawField) : DField := ⟨n, fun x => (U x).getD 0⟩

/-! ## SyN driver: collaborators -/

/-- A borrowed image: dimensionality tag, voxel count along the modelled
axis, and voxel data. -/
structure GridImage where
  dim : Nat
  size : Nat
  data : Nat → ℚ

/-- Modelled from the spec (section 6, Pyramid/Resampler): integer
downsampling by a shrink factor. -/
def downsample (I : GridImage) (s : Nat) : GridImage :=
  ⟨I.dim, max 1 (I.size / max 1 s), fun j => I.data (j * max 1 s)⟩

/-- Modelled from the spec (section 6, Metric): the borrowed metric exposes
a derivative query producing a raw gradient field from
(virtual-domain images, transforms), and a scalar value query.  The `Nat`
argument of `value` is the iteration counter of the current level, letting
the model express the contrived stateful metrics the spec's test scenarios
use; a stateless metric simply ignores it. -/
structure MetricModel where
  deriv : GridImage → DField → GridImage → DField → RawField
  value : Nat → GridImage → DField → GridImage → DField → ℚ

/-! ## SyN driver: convergence monitor (spec section 4.4) -/

/-- Modelled from the spec: record a metric value into the sliding window,
dropping the oldest value once the window exceeds `w`. -/
def recordValue (W : List ℚ) (v : ℚ) (w : Nat) : List ℚ :=
  let W1 := W ++ [v]
  if w < W1.length then W1.drop (W1.length - w) else W1

/-- Least-squares slope of a window of values against their indices. -/
def lsSlope (W : List ℚ) : ℚ :=
  let m : ℚ := W.length
  let sy := W.sum
  let sxy := (W.enum.map fun p => (p.1 : ℚ) * p.2).sum
  let sx := ((List.range W.length).map fun i => (i : ℚ)).sum
  let sxx := ((List.range W.length).map fun i => ((i : ℚ)) ^ 2).sum
  (m * sxy - sx * sy) / (m * sxx - sx ^ 2)

/-- Modelled from the spec: the monitor's query is not-converged while the
window is short, and otherwise compares the absolute windowed slope with
the convergence threshold. -/
def queryConverged (W : List ℚ) (w : Nat) (threshold : ℚ) : Bool :=
  if W.length < w then false else decide (|lsSlope W| < threshold)

/-! ## SyN driver: configuration, state and run (spec sections 4.1, 6, 7) -/

/-- Modelled from the spec (sections 4.1 and 6): the configuration
recognized by the driver. -/
structure SyNConfiguration where
  numberOfLevels : Nat
  shrinkFactors : List Nat
  smoothingSigmas : List ℚ
  numberOfIterationsPerLevel : List Nat
  learningRate : ℚ
  gaussianSmoothingVarianceForTheUpdateField : ℚ
  gaussianSmoothingVarianceForTheTotalField : ℚ
  convergenceThreshold : ℚ
  convergenceWindowSize : Nat

/-- The driver's inputs; a missing input is a missing prerequisite. -/
structure SyNInputs where
  fixedImage : Option GridImage
  movingImage : Option GridImage
  metric : Option MetricModel

/-- Modelled from the spec (section 7): the error taxonomy of `run()`.
`convergenceError` is listed so that its unreachability is a statement
about the driver rather than about the error type. -/
inductive RunError where
  | configurationError
  | domainError
  | numericError
  | metricError
  | convergenceError
deriving DecidableEq, Repr

/-- The two coupled transforms of the driver (header members
`m_MiddleToFixedTransform` and `m_MiddleToMovingTransform`): `phi` is the
middle-to-fixed displacement field with maintained inverse `phiInv`, `psi`
the middle-to-moving one with inverse `psiInv`. -/
structure SyNState where
  phi : DField
  phiInv : DField
  psi : DField
  psiInv : DField

/-- Per-level record of the run: the virtual-domain size the transforms
were adapted to, and how many inner iterations were performed there. -/
structure LevelLog where
  domainSize : Nat
  iterationsPerformed : Nat
deriving DecidableEq, Repr

/-- The value of `result()`: the two transforms with their maintained
inverses, plus the per-level trace. -/
structure SyNResult where
  phi : DField
  phiInv : DField
  psi : DField
  psiInv : DField
  levelTrace : List LevelLog

/-- Swap the roles of the two transforms in a state. -/
def swapState (st : SyNState) : SyNState := ⟨st.psi, st.psiInv, st.phi, st.phiInv⟩

/-- Swap the roles of the two transforms in a result. -/
def swapResult (r : SyNResult) : SyNResult := ⟨r.psi, r.psiInv, r.phi, r.phiInv, r.levelTrace⟩

/-- Modelled from the spec (section 4.1 step 2): resample a displacement
field onto a virtual domain of `n` voxels. -/
def adaptField (D : DField) (n : Nat) : DField :=
  ⟨n, fun j => sampleD D (((D.size : ℚ) / ((max 1 n : Nat) : ℚ)) * (j : ℚ))⟩

/-- Modelled from the spec (section 4.1 step 2): adapt both transforms to
the level's virtual domain and re-derive their inverses. -/
def adaptTransforms (st : SyNState) (n : Nat) : SyNState :=
  let phi := adaptField st.phi n
  let psi := adaptField st.psi n
  ⟨phi, invertDisplacementField phi, psi, invertDisplacementField psi⟩

/-- Modelled from the spec (sections 4.1 step 4a-c and 4.2): build one raw
update field from the metric derivative with the given role assignment and
smooth it with the update-field variance. -/
def smoothedUpdate (cfg : SyNConfiguration) (mu : MetricModel) (A : GridImage)
    (TA : DField) (B : GridImage) (TB : DField) (n : Nat) : RawField :=
  smoothRawField n (mu.deriv A TA B TB) cfg.gaussianSmoothingVarianceForTheUpdateField

/-- Modelled from the spec (section 4.1 step 4d): normalize an update so
its maximum magnitude equals the voxel spacing scale, then scale it by the
learning rate. -/
def normalizeAndScale (cfg : SyNConfiguration) (U : DField) (spacing : ℚ) : DField :=
  if maxMag U = 0 then scaleF cfg.learningRate U
  else scaleF cfg.learningRate (scaleF (spacing / maxMag U) U)

/-- Modelled from the spec (section 4.1 steps 4d-f): apply a finite smoothed
update to a total field and smooth the total field. -/
def applyUpdate (cfg : SyNConfiguration) (D U : DField) (spacing : ℚ) : DField :=
  GaussianSmoothDisplacementField (addF D (normalizeAndScale cfg U spacing))
    cfg.gaussianSmoothingVarianceForTheTotalField

/-- Modelled from the spec (section 4.1 step 4, and the edge policies of
section 4.1): one inner iteration.  Returns the new state, the new monitor
window and a flag telling the level loop to stop (either the zero-update
break or monitor convergence); a non-finite value in a smoothed update
aborts with `numericError`. -/
def iterStep (cfg : SyNConfiguration) (mu : MetricModel) (Fl Ml : GridImage)
    (n : Nat) (spacing : ℚ) (k : Nat) (st : SyNState) (W : List ℚ) :
    Except RunError (SyNState × List ℚ × Bool) :=
  let SF := smoothedUpdate cfg mu Fl st.phi Ml st.psi n
  let SI := smoothedUpdate cfg mu Ml st.psi Fl st.phi n
  if allFinite n SF && allFinite n SI then
    let uf := extractField n SF
    let ui := extractField n SI
    if maxMag uf = 0 ∧ maxMag ui = 0 then
      .ok (st, recordValue W (mu.value k Fl st.phi Ml st.psi) cfg.convergenceWindowSize, true)
    else
      let phi1 := applyUpdate cfg st.phi uf spacing
      let psi1 := applyUpdate cfg st.psi ui spacing
      let st1 : SyNState := ⟨phi1, invertDisplacementField phi1, psi1, invertDisplacementField psi1⟩
      let W1 := recordValue W (mu.value k Fl st1.phi Ml st1.psi) cfg.convergenceWindowSize
      .ok (st1, W1, queryConverged W1 cfg.convergenceWindowSize cfg.convergenceThreshold)
  else .error .numericError

/-- Modelled from the spec (section 4.1 step 4): the inner iteration loop of
one level; `k` is the one-based iteration counter and the returned number is
how many iterations were performed. -/
def runIterations (cfg : SyNConfiguration) (mu : MetricModel) (Fl Ml : GridImage)
    (n : Nat) (spacing : ℚ) : Nat → Nat → SyNState → List ℚ →
    Except RunError (SyNState × Nat)
  | 0, k, st, _ => .ok (st, k - 1)
  | remaining+1, k, st, W =>
    match iterStep cfg mu Fl Ml n spacing k st W with
    | .error e => .error e
    | .ok (st1, W1, stop) =>
      if stop then .ok (st1, k)
      else runIterations cfg mu Fl Ml n spacing remaining (k + 1) st1 W1

/-- Modelled from the spec (section 4.1 outer algorithm): the level loop,
driven by the zipped list of (shrink factor, iteration cap) pairs.  Each
level downsamples the inputs, adapts the transforms to the level's virtual
domain, resets the monitor window, and runs the inner loop. -/
def runLevels (cfg : SyNConfiguration) (mu : MetricModel) (F M : GridImage) :
    List (Nat × Nat) → SyNState → List LevelLog → Except RunError SyNResult
  | [], st, logs => .ok ⟨st.phi, st.phiInv, st.psi, st.psiInv, logs.reverse⟩
  | (s, iters) :: rest, st, logs =>
    let Fl := downsample F s
    let Ml := downsample M s
    let n := Fl.size
    let st1 := adaptTransforms st n
    match runIterations cfg mu Fl Ml n ((max 1 s : Nat) : ℚ) iters 1 st1 [] with
    | .error e => .error e
    | .ok (st2, performed) =>
      runLevels cfg mu F M rest st2 (⟨n, performed⟩ :: logs)

/-- Modelled from the spec (sections 4.1 and 7): the prerequisites checked
before any iteration begins: all inputs set and all per-level arrays of the
length announced by `numberOfLevels`. -/
def prerequisitesSatisfied (cfg : SyNConfiguration) (inp : SyNInputs) : Bool :=
  inp.fixedImage.isSome && inp.movingImage.isSome && inp.metric.isSome &&
    (cfg.shrinkFactors.length == cfg.numberOfLevels) &&
    (cfg.smoothingSigmas.length == cfg.numberOfLevels) &&
    (cfg.numberOfIterationsPerLevel.length == cfg.numberOfLevels)

/-- Modelled from the spec (sections 4.1, 3 and 7): `run()`.  Configuration
prerequisites are checked first, then the image geometries; the transforms
are created zero at the coarsest level's resolution and the level loop takes
over.  Following spec section 8 scenario 3, no positivity check on the
learning rate is performed by `run()` itself. -/
def run (cfg : SyNConfiguration) (inp : SyNInputs) : Except RunError SyNResult :=
  if prerequisitesSatisfied cfg inp then
    match inp.fixedImage, inp.movingImage, inp.metric with
    | some F, some M, some mu =>
      if F.dim == M.dim then
        let n0 := (downsample F (cfg.shrinkFactors.headD 1)).size
        runLevels cfg mu F M (cfg.shrinkFactors.zip cfg.numberOfIterationsPerLevel)
          ⟨zeroDField n0, zeroDField n0, zeroDField n0, zeroDField n0⟩ []
      else .error .domainError
    | _, _, _ => .error .configurationError
  else .error .configurationError

/-- The metric derivative never produces a non-finite value. -/
def MetricAllFinite (mu : MetricModel) : Prop :=
  ∀ A TA B TB x, (mu.deriv A TA B TB x).isSome = true

/-- Decidable check of the inverse-consistency residual bound of spec
section 8, in the form the claim states it: the residual
D(x) + Dinv(x + D(x)) of a forward field and its maintained inverse is
within `epsInv` at every voxel of the domain. -/
def residualWithin (D Dinv : DField) : Bool :=
  (List.range D.size).all fun x =>
    decide (|D.val x + sampleD Dinv ((x : ℚ) + D.val x)| ≤ epsInv)

/-- Observe the inverse-consistency residual check of the forward transform
of a completed run (`none` when the run failed). -/
def runPhiResidualOK (cfg : SyNConfiguration) (inp : SyNInputs) : Option Bool :=
  match run cfg inp with
  | .ok r => some (residualWithin r.phi r.phiInv)
  | .error _ => none

/-- Observe the per-level trace of a completed run. -/
def runTrace (cfg : SyNConfiguration) (inp : SyNInputs) : Option (List LevelLog) :=
  match run cfg inp with
  | .ok r => some r.levelTrace
  | .error _ => none

/-! ## SyN driver: public option surface of the header

These lists are translated from the source header itself
(`itkSyNImageRegistrationMethod.h`), whose `itkSetMacro`/`itkGetConstMacro`
and `itkGetConstReferenceMacro` declarations are the class's public
configuration boundary. -/

/-- The configuration options recognized at the public boundary of
`SyNImageRegistrationMethod`: one entry per Set/Get macro pair in the
header (lines 102-126 of the source file). -/
def recognizedConfigurationOptions : List String :=
  ["LearningRate", "NumberOfIterationsPerLevel", "ConvergenceThreshold",
   "GaussianSmoothingVarianceForTheUpdateField",
   "GaussianSmoothingVarianceForTheTotalField"]

/-- Modelled from the spec (section 6; also documented in the header's doc
comments): the constructor default of the update-field smoothing variance. -/
def defaultGaussianSmoothingVarianceForTheUpdateField : ℚ := 7/4

/-- Modelled from the spec (section 6; also documented in the header's doc
comments): the constructor default of the total-field smoothing variance. -/
def defaultGaussianSmoothingVarianceForTheTotalField : ℚ := 1/2

/-- Both transforms and both maintained inverses are identity transforms. -/
def ZeroState (st : SyNState) : Prop :=
  IsZeroField st.phi ∧ IsZeroField st.phiInv ∧ IsZeroField st.psi ∧ IsZeroField st.psiInv

/-! ## Concrete configurations used by witnesses and counterexamples -/

/-- A metric whose derivative is the finite field (0, 5, 5, ...) on every
query and whose value is constantly zero. -/
def stepMetric : MetricModel :=
  ⟨fun _ _ _ _ => fun x => some (if x = 0 then 0 else 5), fun _ _ _ _ _ => 0⟩

/-- A 2-D image tag over two voxels of zero intensity. -/
def flatImage2 : GridImage := ⟨2, 2, fun _ => 0⟩

/-- One level, shrink 1, a single iteration, learning rate 5 and no
smoothing: a configuration whose single update drives the forward field to
(0, 5). -/
def capCfg : SyNConfiguration := ⟨1, [1], [0], [1], 5, 0, 0, 1/1000000, 10⟩

/-- Inputs pairing the flat image with itself under `stepMetric`. -/
def capInp : SyNInputs := ⟨some flatImage2, some flatImage2, some stepMetric⟩

/-- The contrived metric of spec section 8 scenario 5: the value is
3, 2, 1 on the first three iterations and constantly 0 afterwards; the
derivative is a constant finite field so the zero-update break never
fires. -/
def contrivedMetric : MetricModel :=
  ⟨fun _ _ _ _ => fun _ => some 1,
   fun k _ _ _ _ => if k ≤ 3 then ((4 - (k : Int) : Int) : ℚ) else 0⟩

/-- A 2-D image tag over four voxels of zero intensity. -/
def flatImage4 : GridImage := ⟨2, 4, fun _ => 0⟩

/-- Scenario 5 configuration: one level of up to 20 iterations, window
size 4, threshold 10^-6, zero learning rate and no smoothing. -/
def windowCfg : SyNConfiguration := ⟨1, [1], [0], [20], 0, 0, 0, 1/1000000, 4⟩

/-- Scenario 5 inputs. -/
def windowInp : SyNInputs := ⟨some flatImage4, some flatImage4, some contrivedMetric⟩

/-- A metric with an everywhere-finite derivative (the voxelwise difference
of the two images) and constantly-zero value; its value query is trivially
symmetric in the two roles. -/
def diffMetric : MetricModel :=
  ⟨fun A _ B _ => fun x => some (A.data x - B.data x), fun _ _ _ _ _ => 0⟩

/-- A 2-D test image with ramp data. -/
def rampImage : GridImage := ⟨2, 4, fun x => (x : ℚ)⟩

/-- A 2-D test image with a steeper ramp. -/
def steepImage : GridImage := ⟨2, 4, fun x => 2 * (x : ℚ)⟩

/-- Two levels (shrink 2 then 1) with zero iterations everywhere. -/
def zeroIterCfg : SyNConfiguration := ⟨2, [2, 1], [0, 0], [0, 0], 1, 7/4, 1/2, 1/1000000, 10⟩

/-- One level of two iterations with a quarter learning rate. -/
def smallCfg : SyNConfiguration := ⟨1, [1], [0], [2], 1/4, 0, 0, 1/1000000, 10⟩

/-- `smallCfg` with the learning rate set to zero and three iterations. -/
def zeroRateCfg : SyNConfiguration := ⟨1, [1], [0], [3], 0, 0, 0, 1/1000000, 10⟩

/-- Inputs with every prerequisite missing. -/
def emptyInp : SyNInputs := ⟨none, none, none⟩

/-- A plateau-shaped forward field (2, 2, 2, 1, 0, 0) over six voxels. -/
def plateauField : DField :=
  ⟨6, fun x => if x ≤ 2 then 2 else if x = 3 then 1 else 0⟩

/-- The field (-2, -2, -2, -2, -1, 0): an exact fixed point of the
section-4.5 update map for `plateauField`, at which the section-4.5
residual vanishes while the section-8 residual reaches 1. -/
def plateauInv : DField :=
  ⟨6, fun x => if x ≤ 3 then -2 else if x = 4 then -1 else 0⟩

/-- A table holding one instance "a" at address 7 with type 3, whose type
has a registered delete function. -/
def tableWithA : Instances := ⟨[("a", ⟨7, 3⟩)], [(7, "a")], [3], []⟩

/-- The table expected after re-registering "a" at address 9 with type 4:
the old object was deleted (delete call logged, address 7 unmapped) and the
new mapping installed. -/
def tableAfterSet : Instances := ⟨[("a", ⟨9, 4⟩)], [(9, "a")], [3], [(3, 7)]⟩

/-- A table holding an instance "b" whose type has no registered delete
function. -/
def tableNoFn : Instances := ⟨[("b", ⟨8, 5⟩)], [(8, "b")], [], []⟩

/-- The empty instance table. -/
def emptyTable : Instances := ⟨[], [], [], []⟩

/-! ## Lemmas about the instance table -/

theorem lookup_mapErase_self [BEq α] [LawfulBEq α] (l : List (α × β)) (k : α) :
    (mapErase l k).lookup k = none := by
  induction l with
  | nil => rfl
  | cons p t ih =>
    obtain ⟨a, b⟩ := p
    by_cases h : (a == k) = true
    · rw [show mapErase ((a, b) :: t) k = mapErase t k from by
        simp [mapErase, h]]
      exact ih
    · have hne : (k == a) = false := by
        rw [beq_eq_false_iff_ne]
        intro hk
        exact h (by simp [hk])
      rw [show mapErase ((a, b) :: t) k = (a, b) :: mapErase t k from by
        simp [mapErase, h]]
      simpa [List.lookup, hne] using ih

theorem lookup_mapSet_self [BEq α] [LawfulBEq α] (l : List (α × β)) (k : α) (v : β) :
    (mapSet l k v).lookup k = some v := by
  simp [mapSet, List.lookup]

theorem DeleteObject_of_not_exists (s : Instances) (name : String)
    (h : s.Exists name = false) :
    s.DeleteObject name = (s, some (.undefinedInstanceName name)) := by
  unfold Instances.DeleteObject Instances.CheckExists
  simp only [h, Bool.false_eq_true, if_false]

theorem DeleteObject_of_no_delete_function (s : Instances) (name : String)
    (ref : Reference) (hlk : s.m_InstanceMap.lookup name = some ref)
    (hc : s.m_DeleteFunctionMap.contains ref.cvQualifiedType = false) :
    s.DeleteObject name = (s, some (.undefinedObjectType "")) := by
  have hex : s.Exists name = true := by simp [Instances.Exists, hlk]
  unfold Instances.DeleteObject Instances.CheckExists
  simp only [hex, if_true, hlk, hc, Bool.false_eq_true, if_false]

theorem DeleteObject_of_delete_function (s : Instances) (name : String)
    (ref : Reference) (hlk : s.m_InstanceMap.lookup name = some ref)
    (hc : s.m_DeleteFunctionMap.contains ref.cvQualifiedType = true) :
    s.DeleteObject name =
      (⟨mapErase s.m_InstanceMap name, mapErase s.m_AddressToNameMap ref.object,
        s.m_DeleteFunctionMap, s.deleteCalls ++ [(ref.cvQualifiedType, ref.object)]⟩,
       none) := by
  have hex : s.Exists name = true := by simp [Instances.Exists, hlk]
  unfold Instances.DeleteObject Instances.CheckExists
  simp only [hex, if_true, hlk, hc]

theorem exists_installMapping (s : Instances) (name : String) (object : Addr)
    (ty : TypeId) :
    (s.installMapping name object ty).Exists name = true ∧
    (s.installMapping name object ty).GetObject name = .ok object := by
  constructor
  · simp [Instances.Exists, Instances.installMapping, lookup_mapSet_self]
  · unfold Instances.GetObject Instances.installMapping
    simp [lookup_mapSet_self]

/-- C9: after a successful `Instances::SetObject(name, object, type)` the
name exists and resolves to the new object; and when a previous object was
registered under the name, the table first ran `DeleteObject` on it
successfully (invoking its registered delete function and removing its
address mapping) and only then installed the new mapping. -/
theorem c9_setObject_spec (s : Instances) (name : String) (object : Addr)
    (ty : TypeId) (s1 : Instances)
    (h : s.SetObject name object ty = (s1, none)) :
    s1.Exists name = true ∧ s1.GetObject name = .ok object ∧
    (s.Exists name = true →
      ∃ ref s0, s.m_InstanceMap.lookup name = some ref ∧
        s.DeleteObject name = (s0, none) ∧
        s0.deleteCalls = s.deleteCalls ++ [(ref.cvQualifiedType, ref.object)] ∧
        s0.m_AddressToNameMap.lookup ref.object = none ∧
        s1 = s0.installMapping name object ty) := by
  unfold Instances.SetObject at h
  by_cases hex : s.Exists name = true
  · rw [if_pos hex] at h
    rcases hdel : s.DeleteObject name with ⟨s0, exc⟩
    rw [hdel] at h
    cases exc with
    | some e => simp at h
    | none =>
      have hs1 : s1 = s0.installMapping name object ty := by
        have h2 := congrArg Prod.fst h
        simpa using h2.symm
      obtain ⟨ref, hlk⟩ : ∃ ref, s.m_InstanceMap.lookup name = some ref :=
        Option.isSome_iff_exists.mp hex
      by_cases hc : s.m_DeleteFunctionMap.contains ref.cvQualifiedType = true
      · have hchar := DeleteObject_of_delete_function s name ref hlk hc
        rw [hdel] at hchar
        have hs0 : s0 = ⟨mapErase s.m_InstanceMap name,
            mapErase s.m_AddressToNameMap ref.object,
            s.m_DeleteFunctionMap,
            s.deleteCalls ++ [(ref.cvQualifiedType, ref.object)]⟩ := by
          have h3 := congrArg Prod.fst hchar
          simpa using h3
        refine ⟨?_, ?_, fun _ => ⟨ref, s0, hlk, rfl, ?_, ?_, hs1⟩⟩
        · rw [hs1]; exact (exists_installMapping s0 name object ty).1
        · rw [hs1]; exact (exists_installMapping s0 name object ty).2
        · rw [hs0]
        · rw [hs0]; exact lookup_mapErase_self _ _
      · have hc2 : s.m_DeleteFunctionMap.contains ref.cvQualifiedType = false :=
          Bool.not_eq_true _ ▸ eq_false_of_ne_true hc
        have hchar := DeleteObject_of_no_delete_function s name ref hlk hc2
        rw [hdel] at hchar
        exact absurd (congrArg Prod.snd hchar) (by simp)
  · rw [if_neg hex] at h
    have hs1 : s1 = s.installMapping name object ty := by
      have h2 := congrArg Prod.fst h
      simpa using h2.symm
    refine ⟨?_, ?_, fun hex2 => absurd hex2 hex⟩
    · rw [hs1]; exact (exists_installMapping s name object ty).1
    · rw [hs1]; exact (exists_installMapping s name object ty).2

theorem c9_witness :
    tableWithA.Exists "a" = true ∧
    tableAfterSet.Exists "a" = true ∧ tableAfterSet.GetObject "a" = .ok 9 ∧
    tableAfterSet.deleteCalls = [(3, 7)] := by
  have h : tableWithA.SetObject "a" 9 4 = (tableAfterSet, none) := by decide
  have hc := c9_setObject_spec tableWithA "a" 9 4 tableAfterSet h
  exact ⟨by decide, hc.1, hc.2.1, by decide⟩

/-- C10: `Instances::DeleteObject(name)` throws the undefined-instance-name
exception exactly when the name is unregistered, throws the
undefined-object-type exception when the object exists but its type has no
registered delete function, leaves the whole table state unchanged whenever
it throws, and on success removes the name from the table. -/
theorem c10_deleteObject_spec (s : Instances) (name : String) :
    ((s.DeleteObject name).2 = some (.undefinedInstanceName name) ↔
      s.Exists name = false) ∧
    (∀ ref, s.m_InstanceMap.lookup name = some ref →
      s.m_DeleteFunctionMap.contains ref.cvQualifiedType = false →
      (s.DeleteObject name).2 = some (.undefinedObjectType "")) ∧
    (∀ e, (s.DeleteObject name).2 = some e → (s.DeleteObject name).1 = s) ∧
    ((s.DeleteObject name).2 = none → (s.DeleteObject name).1.Exists name = false) := by
  by_cases hex : s.Exists name = true
  · obtain ⟨ref, hlk⟩ : ∃ ref, s.m_InstanceMap.lookup name = some ref :=
      Option.isSome_iff_exists.mp hex
    by_cases hc : s.m_DeleteFunctionMap.contains ref.cvQualifiedType = true
    · have hchar := DeleteObject_of_delete_function s name ref hlk hc
      rw [hchar]
      refine ⟨by simp [hex], fun ref2 hlk2 hc2 => ?_, by simp, fun _ => ?_⟩
      · rw [hlk] at hlk2
        cases hlk2
        rw [hc] at hc2
        exact absurd hc2 (by simp)
      · simp [Instances.Exists, lookup_mapErase_self]
    · have hc2 : s.m_DeleteFunctionMap.contains ref.cvQualifiedType = false :=
        eq_false_of_ne_true hc
      have hchar := DeleteObject_of_no_delete_function s name ref hlk hc2
      rw [hchar]
      exact ⟨by simp [hex], fun _ _ _ => rfl, fun _ _ => rfl, by simp⟩
  · have hex2 : s.Exists name = false := eq_false_of_ne_true hex
    have hchar := DeleteObject_of_not_exists s name hex2
    rw [hchar]
    refine ⟨by simp [hex2], fun ref2 hlk2 _ => ?_, fun _ _ => rfl, by simp⟩
    exfalso
    rw [Instances.Exists, hlk2] at hex2
    simp at hex2

theorem c10_witness :
    (emptyTable.DeleteObject "a").2 = some (.undefinedInstanceName "a") ∧
    (tableNoFn.DeleteObject "b").2 = some (.undefinedObjectType "") ∧
    (tableNoFn.DeleteObject "b").1 = tableNoFn ∧
    (tableWithA.DeleteObject "a").1.Exists "a" = false := by
  have h1 := c10_deleteObject_spec emptyTable "a"
  have h2 := c10_deleteObject_spec tableNoFn "b"
  have h3 := c10_deleteObject_spec tableWithA "a"
  have hobj := h2.2.1 ⟨8, 5⟩ (by decide) (by decide)
  exact ⟨h1.1.mpr (by decide), hobj, h2.2.2.1 _ hobj, h3.2.2.2 (by decide)⟩

/-! ## Claims about the SyN driver -/

/-- C5: for every displacement field, smoothing with variance 0 is the
identity operation of spec section 4.3. -/
theorem c5_smoother_identity_at_zero_variance (D : DField) :
    GaussianSmoothDisplacementField D 0 = D := by
  simp [GaussianSmoothDisplacementField]

/-- C8 counterexample: the public configuration boundary of the source
header (its Set/Get macro pairs) does not recognize a ConvergenceWindowSize
option, contrary to the claim. -/
theorem c8_counterexample :
    "ConvergenceWindowSize" ∉ recognizedConfigurationOptions := by
  decide

/-- C8 (amended): the header's public boundary recognizes the two Gaussian
smoothing variance options (with constructor defaults 1.75 and 0.5) but
exposes no convergence window size option; only the convergence threshold
is public. -/
theorem c8_recognized_options_and_defaults :
    "GaussianSmoothingVarianceForTheUpdateField" ∈ recognizedConfigurationOptions ∧
    "GaussianSmoothingVarianceForTheTotalField" ∈ recognizedConfigurationOptions ∧
    "ConvergenceThreshold" ∈ recognizedConfigurationOptions ∧
    defaultGaussianSmoothingVarianceForTheUpdateField = 7/4 ∧
    defaultGaussianSmoothingVarianceForTheTotalField = 1/2 := by
  exact ⟨by decide, by decide, by decide, rfl, rfl⟩

/-- C1 counterexample: a configuration and input for which, at the end of
the run's single inner iteration, the forward field and its maintained
inverse violate the claimed bound |D(x) + Dinv(x + D(x))| <= epsInv by a
wide margin (the fixed-point loop exhausts its iteration cap on an
oscillating trajectory). -/
theorem c1_counterexample : runPhiResidualOK capCfg capInp = some false := by
  set_option maxRecDepth 4000 in with_unfolding_all decide

/-- C1 (amended): after total-field smoothing the driver re-derives each
inverse with the fixed-point loop of spec section 4.5, whose target is the
section-4.5 residual D(x + Dinv(x)) + Dinv(x): at any fixed point of the
update map that residual vanishes, hence lies within the tolerance, at
every voxel of the domain; the claimed section-8 bound
|D(x) + Dinv(x + D(x))| <= epsInv is not established - it can reach 1 at
such a fixed point (the plateau example), and fails on the driver's actual
state when the loop exits at the iteration cap. -/
theorem c1_inversion_guarantee :
    (∀ (D Dinv : DField),
      (∀ x, x < D.size → Dinv.val x = -sampleD D ((x : ℚ) + Dinv.val x)) →
      ∀ x, x < D.size →
        |sampleD D ((x : ℚ) + Dinv.val x) + Dinv.val x| ≤ epsInv) ∧
    ((∀ x, x < plateauField.size →
      plateauInv.val x = -sampleD plateauField ((x : ℚ) + plateauInv.val x)) ∧
      residualWithin plateauField plateauInv = false) := by
  constructor
  · intro D Dinv h x hx
    nth_rewrite 2 [h x hx]
    simp [epsInv]
  · with_unfolding_all decide

theorem c1_inversion_guarantee_witness :
    |sampleD (zeroDField 1) (((0 : Nat) : ℚ) + (zeroDField 1).val 0) +
      (zeroDField 1).val 0| ≤ epsInv :=
  c1_inversion_guarantee.1 (zeroDField 1) (zeroDField 1)
    (fun x _ => by simp [zeroDField, sampleD]) 0 (by decide)

/-- C6: the monitor's query reports not-converged while the window is
short, reports converged exactly when the windowed least-squares slope is
below the threshold in absolute value, and in spec scenario 5 (a metric
constant after iteration 3, window size 4, threshold one millionth) the
driver terminates at iteration 7. -/
theorem c6_convergence_monitor :
    (∀ (W : List ℚ) (w : Nat) (thr : ℚ), W.length < w →
      queryConverged W w thr = false) ∧
    (∀ (W : List ℚ) (w : Nat) (thr : ℚ), W.length = w →
      (queryConverged W w thr = true ↔ |lsSlope W| < thr)) ∧
    runTrace windowCfg windowInp = some [⟨4, 7⟩] := by
  refine ⟨?_, ?_, ?_⟩
  · intro W w thr h
    simp [queryConverged, h]
  · intro W w thr h
    simp [queryConverged, h]
  · set_option maxRecDepth 4000 in with_unfolding_all decide

theorem c6_convergence_monitor_witness :
    queryConverged [3, 2] 4 (1/1000000) = false ∧
    (queryConverged [0, 0, 0, 0] 4 (1/1000000) = true ↔
      |lsSlope [0, 0, 0, 0]| < 1/1000000) :=
  ⟨c6_convergence_monitor.1 [3, 2] 4 (1/1000000) (by decide),
   c6_convergence_monitor.2.1 [0, 0, 0, 0] 4 (1/1000000) rfl⟩

/-! ## Zero-field preservation lemmas -/

theorem zeroDField_isZero (n : Nat) : IsZeroField (zeroDField n) := fun _ => rfl

theorem sampleD_zero (D : DField) (h : IsZeroField D) (y : ℚ) : sampleD D y = 0 := h _

theorem adaptField_zero (D : DField) (h : IsZeroField D) (n : Nat) :
    IsZeroField (adaptField D n) := fun _ => h _

theorem invStep_zero (D : DField) (h : IsZeroField D) (Dinv : DField) :
    IsZeroField (invStep D Dinv) := by
  intro x
  show -sampleD D _ = 0
  rw [sampleD_zero D h, neg_zero]

theorem invertAux_zero (D : DField) (h : IsZeroField D) :
    ∀ (fuel : Nat) (Dinv : DField), IsZeroField Dinv →
      IsZeroField (invertAux D fuel Dinv) := by
  intro fuel
  induction fuel with
  | zero => intro Dinv hInv; exact hInv
  | succ k ih =>
    intro Dinv hInv
    simp only [invertAux]
    split
    · exact invStep_zero D h Dinv
    · exact ih _ (invStep_zero D h Dinv)

theorem invertDisplacementField_zero (D : DField) (h : IsZeroField D) :
    IsZeroField (invertDisplacementField D) :=
  invertAux_zero D h invMaxIterations _ (zeroDField_isZero _)

theorem binomialPass_zero (D : DField) (h : IsZeroField D) :
    IsZeroField (binomialPass D) := by
  intro x
  show (D.val _ + 2 * D.val x + D.val _) / 4 = 0
  rw [h, h, h]
  norm_num

theorem iterate_binomialPass_zero :
    ∀ (k : Nat) (D : DField), IsZeroField D → IsZeroField (binomialPass^[k] D) := by
  intro k
  induction k with
  | zero => intro D h; exact h
  | succ j ih =>
    intro D h
    rw [Function.iterate_succ_apply]
    exact ih _ (binomialPass_zero D h)

theorem clampBoundary_zero (D : DField) (h : IsZeroField D) :
    IsZeroField (clampBoundary D) := by
  intro x
  show (if x = 0 ∨ x = D.size - 1 then 0 else D.val x) = 0
  split
  · rfl
  · exact h x

theorem gaussianSmooth_zero (D : DField) (h : IsZeroField D) (v : ℚ) :
    IsZeroField (GaussianSmoothDisplacementField D v) := by
  unfold GaussianSmoothDisplacementField
  split
  · exact h
  · exact clampBoundary_zero _ (iterate_binomialPass_zero _ _ h)

theorem adaptTransforms_zero (st : SyNState) (hz : ZeroState st) (n : Nat) :
    ZeroState (adaptTransforms st n) := by
  obtain ⟨h1, _, h3, _⟩ := hz
  exact ⟨adaptField_zero _ h1 n,
    invertDisplacementField_zero _ (adaptField_zero _ h1 n),
    adaptField_zero _ h3 n,
    invertDisplacementField_zero _ (adaptField_zero _ h3 n)⟩

theorem runLevels_zero_iterations (cfg : SyNConfiguration) (mu : MetricModel)
    (F M : GridImage) :
    ∀ (L : List (Nat × Nat)) (st : SyNState) (logs : List LevelLog),
      (∀ p ∈ L, p.2 = 0) → ZeroState st →
      ∃ r, runLevels cfg mu F M L st logs = .ok r ∧
        IsZeroField r.phi ∧ IsZeroField r.phiInv ∧
        IsZeroField r.psi ∧ IsZeroField r.psiInv ∧
        r.levelTrace = logs.reverse ++
          L.map (fun p => ⟨(downsample F p.1).size, 0⟩) := by
  intro L
  induction L with
  | nil =>
    intro st logs _ hz
    exact ⟨_, rfl, hz.1, hz.2.1, hz.2.2.1, hz.2.2.2, by simp⟩
  | cons p rest ih =>
    intro st logs hiter hz
    obtain ⟨s, iters⟩ := p
    have h0 : iters = 0 := hiter (s, iters) (List.mem_cons_self _ _)
    subst h0
    have hz1 : ZeroState (adaptTransforms st (downsample F s).size) :=
      adaptTransforms_zero st hz _
    obtain ⟨r, hr, h1, h2, h3, h4, htr⟩ :=
      ih (adaptTransforms st (downsample F s).size)
        (⟨(downsample F s).size, 0⟩ :: logs)
        (fun q hq => hiter q (List.mem_cons_of_mem _ hq)) hz1
    refine ⟨r, ?_, h1, h2, h3, h4, ?_⟩
    · simp only [runLevels, runIterations]
      exact hr
    · rw [htr]
      simp

/-- C2: with well-formed prerequisites and every per-level iteration count
zero, `run()` completes successfully, both transforms (and their maintained
inverses) are identity transforms, and the per-level trace still records
one adaptation to each level's virtual domain before advancing. -/
theorem c2_zero_iterations (cfg : SyNConfiguration) (F M : GridImage)
    (mu : MetricModel)
    (h1 : cfg.shrinkFactors.length = cfg.numberOfLevels)
    (h2 : cfg.smoothingSigmas.length = cfg.numberOfLevels)
    (h3 : cfg.numberOfIterationsPerLevel.length = cfg.numberOfLevels)
    (h4 : F.dim = M.dim)
    (hiter : ∀ N ∈ cfg.numberOfIterationsPerLevel, N = 0) :
    ∃ r, run cfg ⟨some F, some M, some mu⟩ = .ok r ∧
      IsZeroField r.phi ∧ IsZeroField r.phiInv ∧
      IsZeroField r.psi ∧ IsZeroField r.psiInv ∧
      r.levelTrace = cfg.shrinkFactors.map
        (fun s => ⟨(downsample F s).size, 0⟩) := by
  have hpre : prerequisitesSatisfied cfg ⟨some F, some M, some mu⟩ = true := by
    simp [prerequisitesSatisfied, h1, h2, h3]
  have hzip : ∀ p ∈ cfg.shrinkFactors.zip cfg.numberOfIterationsPerLevel, p.2 = 0 := by
    intro p hp
    exact hiter p.2 (List.of_mem_zip hp).2
  have hz0 : ZeroState ⟨zeroDField ((downsample F (cfg.shrinkFactors.headD 1)).size),
      zeroDField ((downsample F (cfg.shrinkFactors.headD 1)).size),
      zeroDField ((downsample F (cfg.shrinkFactors.headD 1)).size),
      zeroDField ((downsample F (cfg.shrinkFactors.headD 1)).size)⟩ :=
    ⟨zeroDField_isZero _, zeroDField_isZero _, zeroDField_isZero _, zeroDField_isZero _⟩
  obtain ⟨r, hr, ha, hb, hc, hd, htr⟩ :=
    runLevels_zero_iterations cfg mu F M
      (cfg.shrinkFactors.zip cfg.numberOfIterationsPerLevel) _ [] hzip hz0
  refine ⟨r, ?_, ha, hb, hc, hd, ?_⟩
  · unfold run
    rw [hpre]
    simp only [if_true]
    rw [show (F.dim == M.dim) = true from by simp [h4]]
    simp only [if_true]
    exact hr
  · rw [htr]
    have hlen : cfg.shrinkFactors.length ≤ cfg.numberOfIterationsPerLevel.length := by
      rw [h1, h3]
    calc ([] : List LevelLog).reverse ++
          (cfg.shrinkFactors.zip cfg.numberOfIterationsPerLevel).map
            (fun p => (⟨(downsample F p.1).size, 0⟩ : LevelLog))
        = ((cfg.shrinkFactors.zip cfg.numberOfIterationsPerLevel).map Prod.fst).map
            (fun s => (⟨(downsample F s).size, 0⟩ : LevelLog)) := by
          rw [List.map_map]
          simp
      _ = cfg.shrinkFactors.map (fun s => (⟨(downsample F s).size, 0⟩ : LevelLog)) := by
          rw [List.map_fst_zip _ _ hlen]

theorem c2_zero_iterations_witness :
    ∃ r, run zeroIterCfg ⟨some flatImage4, some flatImage4, some diffMetric⟩ = .ok r ∧
      IsZeroField r.phi ∧ IsZeroField r.phiInv ∧
      IsZeroField r.psi ∧ IsZeroField r.psiInv ∧
      r.levelTrace = zeroIterCfg.shrinkFactors.map
        (fun s => ⟨(downsample flatImage4 s).size, 0⟩) :=
  c2_zero_iterations zeroIterCfg flatImage4 flatImage4 diffMetric rfl rfl rfl rfl
    (by decide)

/-! ## Finiteness lemmas for raw update fields -/

theorem binomialPassO_isSome (n : Nat) (U : RawField)
    (h : ∀ x, (U x).isSome = true) :
    ∀ x, (binomialPassO n U x).isSome = true := by
  intro x
  unfold binomialPassO
  obtain ⟨a, ha⟩ := Option.isSome_iff_exists.mp (h (clampIdx n ((x : Int) - 1)))
  obtain ⟨b, hb⟩ := Option.isSome_iff_exists.mp (h x)
  obtain ⟨c, hc⟩ := Option.isSome_iff_exists.mp (h (clampIdx n ((x : Int) + 1)))
  rw [ha, hb, hc]
  rfl

theorem iterate_binomialPassO_isSome (n : Nat) :
    ∀ (k : Nat) (U : RawField), (∀ x, (U x).isSome = true) →
      ∀ x, (((binomialPassO n)^[k] U) x).isSome = true := by
  intro k
  induction k with
  | zero => intro U h; exact h
  | succ j ih =>
    intro U h
    simp only [Function.iterate_succ_apply]
    exact ih (binomialPassO n U) (binomialPassO_isSome n U h)

theorem smoothRawField_isSome (n : Nat) (U : RawField) (v : ℚ)
    (h : ∀ x, (U x).isSome = true) :
    ∀ x, ((smoothRawField n U v) x).isSome = true := by
  unfold smoothRawField
  split
  · exact h
  · exact iterate_binomialPassO_isSome n _ U h

theorem allFinite_of_isSome (n : Nat) (U : RawField)
    (h : ∀ x, (U x).isSome = true) : allFinite n U = true := by
  unfold allFinite
  rw [List.all_eq_true]
  intro x _
  exact h x

/-! ## Zero-learning-rate lemmas -/

theorem normalizeAndScale_zero_rate (cfg : SyNConfiguration)
    (hlr : cfg.learningRate = 0) (U : DField) (spacing : ℚ) :
    IsZeroField (normalizeAndScale cfg U spacing) := by
  unfold normalizeAndScale
  split
  · intro x
    show cfg.learningRate * _ = 0
    rw [hlr, zero_mul]
  · intro x
    show cfg.learningRate * _ = 0
    rw [hlr, zero_mul]

theorem addF_zero (A U : DField) (hA : IsZeroField A) (hU : IsZeroField U) :
    IsZeroField (addF A U) := by
  intro x
  show A.val x + U.val x = 0
  rw [hA, hU, add_zero]

theorem applyUpdate_zero (cfg : SyNConfiguration) (hlr : cfg.learningRate = 0)
    (D U : DField) (spacing : ℚ) (hD : IsZeroField D) :
    IsZeroField (applyUpdate cfg D U spacing) :=
  gaussianSmooth_zero _
    (addF_zero _ _ hD (normalizeAndScale_zero_rate cfg hlr U spacing)) _

theorem iterStep_zero_rate (cfg : SyNConfiguration) (mu : MetricModel)
    (Fl Ml : GridImage) (n : Nat) (spacing : ℚ) (k : Nat) (st : SyNState)
    (W : List ℚ) (hlr : cfg.learningRate = 0) (hfin : MetricAllFinite mu)
    (hz : ZeroState st) :
    ∃ st1 W1 stop, iterStep cfg mu Fl Ml n spacing k st W = .ok (st1, W1, stop) ∧
      ZeroState st1 := by
  have hSF : allFinite n (smoothedUpdate cfg mu Fl st.phi Ml st.psi n) = true :=
    allFinite_of_isSome n _
      (smoothRawField_isSome n _ _ (fun x => hfin Fl st.phi Ml st.psi x))
  have hSI : allFinite n (smoothedUpdate cfg mu Ml st.psi Fl st.phi n) = true :=
    allFinite_of_isSome n _
      (smoothRawField_isSome n _ _ (fun x => hfin Ml st.psi Fl st.phi x))
  simp only [iterStep, hSF, hSI, Bool.and_self, if_true]
  split
  · exact ⟨st, _, true, rfl, hz⟩
  · exact ⟨_, _, _, rfl,
      applyUpdate_zero cfg hlr _ _ _ hz.1,
      invertDisplacementField_zero _ (applyUpdate_zero cfg hlr _ _ _ hz.1),
      applyUpdate_zero cfg hlr _ _ _ hz.2.2.1,
      invertDisplacementField_zero _ (applyUpdate_zero cfg hlr _ _ _ hz.2.2.1)⟩

theorem runIterations_zero_rate (cfg : SyNConfiguration) (mu : MetricModel)
    (Fl Ml : GridImage) (n : Nat) (spacing : ℚ) (hlr : cfg.learningRate = 0)
    (hfin : MetricAllFinite mu) :
    ∀ (fuel k : Nat) (st : SyNState) (W : List ℚ), ZeroState st →
      ∃ stc, runIterations cfg mu Fl Ml n spacing fuel k st W = .ok stc ∧
        ZeroState stc.1 := by
  intro fuel
  induction fuel with
  | zero => intro k st W hz; exact ⟨(st, k - 1), rfl, hz⟩
  | succ m ih =>
    intro k st W hz
    obtain ⟨st1, W1, stop, hstep, hz1⟩ :=
      iterStep_zero_rate cfg mu Fl Ml n spacing k st W hlr hfin hz
    rw [runIterations, hstep]
    cases stop with
    | true => exact ⟨(st1, k), by simp, hz1⟩
    | false =>
      obtain ⟨stc, hrun, hzc⟩ := ih (k + 1) st1 W1 hz1
      exact ⟨stc, by simpa using hrun, hzc⟩

theorem runLevels_zero_rate (cfg : SyNConfiguration) (mu : MetricModel)
    (F M : GridImage) (hlr : cfg.learningRate = 0) (hfin : MetricAllFinite mu) :
    ∀ (L : List (Nat × Nat)) (st : SyNState) (logs : List LevelLog), ZeroState st →
      ∃ r, runLevels cfg mu F M L st logs = .ok r ∧
        IsZeroField r.phi ∧ IsZeroField r.phiInv ∧
        IsZeroField r.psi ∧ IsZeroField r.psiInv := by
  intro L
  induction L with
  | nil => intro st logs hz; exact ⟨_, rfl, hz.1, hz.2.1, hz.2.2.1, hz.2.2.2⟩
  | cons p rest ih =>
    intro st logs hz
    obtain ⟨s, iters⟩ := p
    obtain ⟨stc, hit, hz2⟩ :=
      runIterations_zero_rate cfg mu (downsample F s) (downsample M s)
        (downsample F s).size ((max 1 s : Nat) : ℚ) hlr hfin iters 1
        (adaptTransforms st (downsample F s).size) []
        (adaptTransforms_zero st hz _)
    obtain ⟨r, hrest, h1, h2, h3, h4⟩ := ih stc.1 (⟨(downsample F s).size, stc.2⟩ :: logs) hz2
    refine ⟨r, ?_, h1, h2, h3, h4⟩
    simp only [runLevels, hit]
    exact hrest

/-- C7: with well-formed prerequisites, an everywhere-finite metric
derivative and learning rate zero, `run()` returns successfully and both
transforms (and their maintained inverses) are identity transforms. -/
theorem c7_zero_learning_rate (cfg : SyNConfiguration) (F M : GridImage)
    (mu : MetricModel)
    (h1 : cfg.shrinkFactors.length = cfg.numberOfLevels)
    (h2 : cfg.smoothingSigmas.length = cfg.numberOfLevels)
    (h3 : cfg.numberOfIterationsPerLevel.length = cfg.numberOfLevels)
    (h4 : F.dim = M.dim)
    (hlr : cfg.learningRate = 0)
    (hfin : MetricAllFinite mu) :
    ∃ r, run cfg ⟨some F, some M, some mu⟩ = .ok r ∧
      IsZeroField r.phi ∧ IsZeroField r.phiInv ∧
      IsZeroField r.psi ∧ IsZeroField r.psiInv := by
  have hpre : prerequisitesSatisfied cfg ⟨some F, some M, some mu⟩ = true := by
    simp [prerequisitesSatisfied, h1, h2, h3]
  obtain ⟨r, hr, ha, hb, hc, hd⟩ :=
    runLevels_zero_rate cfg mu F M hlr hfin
      (cfg.shrinkFactors.zip cfg.numberOfIterationsPerLevel)
      ⟨zeroDField ((downsample F (cfg.shrinkFactors.headD 1)).size),
       zeroDField ((downsample F (cfg.shrinkFactors.headD 1)).size),
       zeroDField ((downsample F (cfg.shrinkFactors.headD 1)).size),
       zeroDField ((downsample F (cfg.shrinkFactors.headD 1)).size)⟩ []
      ⟨zeroDField_isZero _, zeroDField_isZero _, zeroDField_isZero _, zeroDField_isZero _⟩
  refine ⟨r, ?_, ha, hb, hc, hd⟩
  unfold run
  rw [hpre]
  simp only [if_true]
  rw [show (F.dim == M.dim) = true from by simp [h4]]
  simp only [if_true]
  exact hr

theorem c7_zero_learning_rate_witness :
    ∃ r, run zeroRateCfg ⟨some rampImage, some steepImage, some diffMetric⟩ = .ok r ∧
      IsZeroField r.phi ∧ IsZeroField r.phiInv ∧
      IsZeroField r.psi ∧ IsZeroField r.psiInv :=
  c7_zero_learning_rate zeroRateCfg rampImage steepImage diffMetric rfl rfl rfl rfl rfl
    (fun _ _ _ _ _ => rfl)

/-! ## Error taxonomy lemmas -/

theorem iterStep_ok_of_finite (cfg : SyNConfiguration) (mu : MetricModel)
    (Fl Ml : GridImage) (n : Nat) (spacing : ℚ) (k : Nat) (st : SyNState)
    (W : List ℚ) (hfin : MetricAllFinite mu) :
    ∃ out, iterStep cfg mu Fl Ml n spacing k st W = .ok out := by
  have hSF : allFinite n (smoothedUpdate cfg mu Fl st.phi Ml st.psi n) = true :=
    allFinite_of_isSome n _
      (smoothRawField_isSome n _ _ (fun x => hfin Fl st.phi Ml st.psi x))
  have hSI : allFinite n (smoothedUpdate cfg mu Ml st.psi Fl st.phi n) = true :=
    allFinite_of_isSome n _
      (smoothRawField_isSome n _ _ (fun x => hfin Ml st.psi Fl st.phi x))
  simp only [iterStep, hSF, hSI, Bool.and_self, if_true]
  split
  · exact ⟨_, rfl⟩
  · exact ⟨_, rfl⟩

theorem iterStep_error_numeric (cfg : SyNConfiguration) (mu : MetricModel)
    (Fl Ml : GridImage) (n : Nat) (spacing : ℚ) (k : Nat) (st : SyNState)
    (W : List ℚ) (e : RunError)
    (h : iterStep cfg mu Fl Ml n spacing k st W = .error e) : e = .numericError := by
  simp only [iterStep] at h
  split at h
  · split at h <;> simp at h
  · simp only [Except.error.injEq] at h
    exact h.symm

theorem runIterations_ok_of_finite (cfg : SyNConfiguration) (mu : MetricModel)
    (Fl Ml : GridImage) (n : Nat) (spacing : ℚ) (hfin : MetricAllFinite mu) :
    ∀ (fuel k : Nat) (st : SyNState) (W : List ℚ),
      ∃ out, runIterations cfg mu Fl Ml n spacing fuel k st W = .ok out := by
  intro fuel
  induction fuel with
  | zero => intro k st W; exact ⟨_, rfl⟩
  | succ m ih =>
    intro k st W
    obtain ⟨⟨st1, W1, stop⟩, hstep⟩ :=
      iterStep_ok_of_finite cfg mu Fl Ml n spacing k st W hfin
    rw [runIterations, hstep]
    cases stop with
    | true => exact ⟨(st1, k), by simp⟩
    | false =>
      obtain ⟨out, hout⟩ := ih (k + 1) st1 W1
      exact ⟨out, by simpa using hout⟩

theorem runIterations_error_numeric (cfg : SyNConfiguration) (mu : MetricModel)
    (Fl Ml : GridImage) (n : Nat) (spacing : ℚ) :
    ∀ (fuel k : Nat) (st : SyNState) (W : List ℚ) (e : RunError),
      runIterations cfg mu Fl Ml n spacing fuel k st W = .error e →
      e = .numericError := by
  intro fuel
  induction fuel with
  | zero => intro k st W e h; simp [runIterations] at h
  | succ m ih =>
    intro k st W e h
    rw [runIterations] at h
    rcases hstep : iterStep cfg mu Fl Ml n spacing k st W with e2 | out
    · rw [hstep] at h
      simp only [Except.error.injEq] at h
      rw [← h]
      exact iterStep_error_numeric cfg mu Fl Ml n spacing k st W e2 hstep
    · obtain ⟨st1, W1, stop⟩ := out
      rw [hstep] at h
      simp only at h
      cases stop with
      | true => simp at h
      | false => exact ih (k + 1) st1 W1 e (by simpa using h)

theorem runLevels_ok_of_finite (cfg : SyNConfiguration) (mu : MetricModel)
    (F M : GridImage) (hfin : MetricAllFinite mu) :
    ∀ (L : List (Nat × Nat)) (st : SyNState) (logs : List LevelLog),
      ∃ r, runLevels cfg mu F M L st logs = .ok r := by
  intro L
  induction L with
  | nil => intro st logs; exact ⟨_, rfl⟩
  | cons p rest ih =>
    intro st logs
    obtain ⟨s, iters⟩ := p
    obtain ⟨⟨st2, c⟩, hit⟩ :=
      runIterations_ok_of_finite cfg mu (downsample F s) (downsample M s)
        (downsample F s).size ((max 1 s : Nat) : ℚ) hfin iters 1
        (adaptTransforms st (downsample F s).size) []
    obtain ⟨r, hrest⟩ := ih st2 (⟨(downsample F s).size, c⟩ :: logs)
    refine ⟨r, ?_⟩
    simp only [runLevels, hit]
    exact hrest

theorem runLevels_error_numeric (cfg : SyNConfiguration) (mu : MetricModel)
    (F M : GridImage) :
    ∀ (L : List (Nat × Nat)) (st : SyNState) (logs : List LevelLog) (e : RunError),
      runLevels cfg mu F M L st logs = .error e → e = .numericError := by
  intro L
  induction L with
  | nil => intro st logs e h; simp [runLevels] at h
  | cons p rest ih =>
    intro st logs e h
    obtain ⟨s, iters⟩ := p
    rw [runLevels] at h
    rcases hit : runIterations cfg mu (downsample F s) (downsample M s)
        (downsample F s).size ((max 1 s : Nat) : ℚ) iters 1
        (adaptTransforms st (downsample F s).size) [] with e2 | out
    · rw [hit] at h
      simp only [Except.error.injEq] at h
      rw [← h]
      exact runIterations_error_numeric cfg mu _ _ _ _ _ _ _ _ e2 hit
    · obtain ⟨st2, c⟩ := out
      rw [hit] at h
      exact ih st2 (⟨(downsample F s).size, c⟩ :: logs) e (by simpa using h)

theorem run_domain_mismatch (cfg : SyNConfiguration) (F M : GridImage)
    (mu : MetricModel)
    (hpre : prerequisitesSatisfied cfg ⟨some F, some M, some mu⟩ = true)
    (hdim : F.dim ≠ M.dim) :
    run cfg ⟨some F, some M, some mu⟩ = .error .domainError := by
  unfold run
  rw [hpre]
  simp only [if_true]
  rw [show (F.dim == M.dim) = false from by simp [hdim]]
  simp

/-- C4: `run()` reports a configuration error whenever prerequisites are
missing (the check precedes every iteration), never reports a convergence
error (exhausting a level's cap is a legitimate termination), succeeds
whenever the configuration, geometry and metric are well behaved, and
reports a numeric error only when the metric derivative can produce a
non-finite value. -/
theorem c4_error_taxonomy :
    (∀ (cfg : SyNConfiguration) (inp : SyNInputs),
      prerequisitesSatisfied cfg inp = false →
      run cfg inp = .error .configurationError) ∧
    (∀ (cfg : SyNConfiguration) (inp : SyNInputs) (e : RunError),
      run cfg inp = .error e → e ≠ .convergenceError) ∧
    (∀ (cfg : SyNConfiguration) (F M : GridImage) (mu : MetricModel),
      MetricAllFinite mu →
      prerequisitesSatisfied cfg ⟨some F, some M, some mu⟩ = true →
      F.dim = M.dim →
      ∃ r, run cfg ⟨some F, some M, some mu⟩ = .ok r) ∧
    (∀ (cfg : SyNConfiguration) (F M : GridImage) (mu : MetricModel),
      run cfg ⟨some F, some M, some mu⟩ = .error .numericError →
      ¬ MetricAllFinite mu) := by
  have hconf : ∀ (cfg : SyNConfiguration) (inp : SyNInputs),
      prerequisitesSatisfied cfg inp = false →
      run cfg inp = .error .configurationError := by
    intro cfg inp h
    unfold run
    rw [h]
    simp
  have hok : ∀ (cfg : SyNConfiguration) (F M : GridImage) (mu : MetricModel),
      MetricAllFinite mu →
      prerequisitesSatisfied cfg ⟨some F, some M, some mu⟩ = true →
      F.dim = M.dim →
      ∃ r, run cfg ⟨some F, some M, some mu⟩ = .ok r := by
    intro cfg F M mu hfin hpre hdim
    obtain ⟨r, hr⟩ :=
      runLevels_ok_of_finite cfg mu F M hfin
        (cfg.shrinkFactors.zip cfg.numberOfIterationsPerLevel)
        ⟨zeroDField ((downsample F (cfg.shrinkFactors.headD 1)).size),
         zeroDField ((downsample F (cfg.shrinkFactors.headD 1)).size),
         zeroDField ((downsample F (cfg.shrinkFactors.headD 1)).size),
         zeroDField ((downsample F (cfg.shrinkFactors.headD 1)).size)⟩ []
    refine ⟨r, ?_⟩
    unfold run
    rw [hpre]
    simp only [if_true]
    rw [show (F.dim == M.dim) = true from by simp [hdim]]
    simp only [if_true]
    exact hr
  refine ⟨hconf, ?_, hok, ?_⟩
  · intro cfg inp e h
    by_cases hpre : prerequisitesSatisfied cfg inp = true
    · unfold run at h
      rw [hpre] at h
      simp only [if_true] at h
      rcases inp with ⟨fi, mi, me⟩
      cases fi with
      | none =>
        have he : e = .configurationError := by simpa using h.symm
        subst he; decide
      | some F =>
        cases mi with
        | none =>
          have he : e = .configurationError := by simpa using h.symm
          subst he; decide
        | some M =>
          cases me with
          | none =>
            have he : e = .configurationError := by simpa using h.symm
            subst he; decide
          | some mu =>
            dsimp only at h
            by_cases hdim : (F.dim == M.dim) = true
            · rw [hdim] at h
              simp only [if_true] at h
              have he := runLevels_error_numeric cfg mu F M _ _ _ e h
              subst he; decide
            · rw [eq_false_of_ne_true hdim] at h
              simp only [Bool.false_eq_true, if_false] at h
              have he : e = .domainError := by simpa using h.symm
              subst he; decide
    · have h2 := hconf cfg inp (eq_false_of_ne_true hpre)
      rw [h2] at h
      have he : e = .configurationError := by simpa using h.symm
      subst he; decide
  · intro cfg F M mu h hfin
    by_cases hpre : prerequisitesSatisfied cfg ⟨some F, some M, some mu⟩ = true
    · by_cases hdim : F.dim = M.dim
      · obtain ⟨r, hr⟩ := hok cfg F M mu hfin hpre hdim
        rw [hr] at h
        simp at h
      · rw [run_domain_mismatch cfg F M mu hpre hdim] at h
        simp at h
    · rw [hconf cfg _ (eq_false_of_ne_true hpre)] at h
      simp at h

theorem c4_error_taxonomy_witness :
    run smallCfg emptyInp = .error .configurationError ∧
    (∃ r, run smallCfg ⟨some rampImage, some steepImage, some diffMetric⟩ = .ok r) :=
  ⟨c4_error_taxonomy.1 smallCfg emptyInp (by decide),
   c4_error_taxonomy.2.2.1 smallCfg rampImage steepImage diffMetric
     (fun _ _ _ _ _ => rfl) (by decide) rfl⟩

/-! ## Swap-symmetry lemmas -/

theorem iterStep_swap (cfg : SyNConfiguration) (mu : MetricModel)
    (hval : ∀ k A TA B TB, mu.value k A TA B TB = mu.value k B TB A TA)
    (A B : GridImage) (n : Nat) (spacing : ℚ) (k : Nat) (st : SyNState)
    (W : List ℚ) :
    iterStep cfg mu B A n spacing k (swapState st) W =
      (iterStep cfg mu A B n spacing k st W).map
        (fun out => (swapState out.1, out.2.1, out.2.2)) := by
  have hcomm : (allFinite n (smoothedUpdate cfg mu B st.psi A st.phi n) &&
      allFinite n (smoothedUpdate cfg mu A st.phi B st.psi n)) =
      (allFinite n (smoothedUpdate cfg mu A st.phi B st.psi n) &&
      allFinite n (smoothedUpdate cfg mu B st.psi A st.phi n)) := Bool.and_comm _ _
  simp only [iterStep, swapState]
  rw [hcomm]
  by_cases hc : (allFinite n (smoothedUpdate cfg mu A st.phi B st.psi n) &&
      allFinite n (smoothedUpdate cfg mu B st.psi A st.phi n)) = true
  · rw [if_pos hc, if_pos hc]
    by_cases hz : (maxMag (extractField n (smoothedUpdate cfg mu A st.phi B st.psi n)) = 0 ∧
        maxMag (extractField n (smoothedUpdate cfg mu B st.psi A st.phi n)) = 0)
    · rw [if_pos hz, if_pos (And.intro hz.2 hz.1)]
      simp only [Except.map]
      rw [hval k B st.psi A st.phi]
    · rw [if_neg hz, if_neg (fun h2 => hz (And.intro h2.2 h2.1))]
      simp only [Except.map]
      rw [hval k B
        (applyUpdate cfg st.psi (extractField n (smoothedUpdate cfg mu B st.psi A st.phi n)) spacing)
        A
        (applyUpdate cfg st.phi (extractField n (smoothedUpdate cfg mu A st.phi B st.psi n)) spacing)]
  · rw [if_neg hc, if_neg hc]
    simp only [Except.map]

theorem runIterations_swap (cfg : SyNConfiguration) (mu : MetricModel)
    (hval : ∀ k A TA B TB, mu.value k A TA B TB = mu.value k B TB A TA)
    (A B : GridImage) (n : Nat) (spacing : ℚ) :
    ∀ (fuel k : Nat) (st : SyNState) (W : List ℚ),
      runIterations cfg mu B A n spacing fuel k (swapState st) W =
        (runIterations cfg mu A B n spacing fuel k st W).map
          (fun out => (swapState out.1, out.2)) := by
  intro fuel
  induction fuel with
  | zero => intro k st W; rfl
  | succ m ih =>
    intro k st W
    rw [runIterations, runIterations,
      iterStep_swap cfg mu hval A B n spacing k st W]
    cases hstep : iterStep cfg mu A B n spacing k st W with
    | error e => simp [Except.map]
    | ok out =>
      obtain ⟨st1, W1, stop⟩ := out
      simp only [Except.map]
      cases stop with
      | true => simp
      | false => simpa using ih (k + 1) st1 W1

theorem adaptTransforms_swap (st : SyNState) (n : Nat) :
    adaptTransforms (swapState st) n = swapState (adaptTransforms st n) := rfl

theorem runLevels_swap (cfg : SyNConfiguration) (mu : MetricModel)
    (hval : ∀ k A TA B TB, mu.value k A TA B TB = mu.value k B TB A TA)
    (F M : GridImage) (hsize : F.size = M.size) :
    ∀ (L : List (Nat × Nat)) (st : SyNState) (logs : List LevelLog),
      runLevels cfg mu M F L (swapState st) logs =
        (runLevels cfg mu F M L st logs).map swapResult := by
  intro L
  induction L with
  | nil => intro st logs; rfl
  | cons p rest ih =>
    intro st logs
    obtain ⟨s, iters⟩ := p
    have hn : (downsample M s).size = (downsample F s).size := by
      simp [downsample, hsize]
    rw [runLevels, runLevels, hn, adaptTransforms_swap,
      runIterations_swap cfg mu hval (downsample F s) (downsample M s)
        (downsample F s).size ((max 1 s : Nat) : ℚ) iters 1
        (adaptTransforms st (downsample F s).size) []]
    cases hit : runIterations cfg mu (downsample F s) (downsample M s)
        (downsample F s).size ((max 1 s : Nat) : ℚ) iters 1
        (adaptTransforms st (downsample F s).size) [] with
    | error e => simp [Except.map]
    | ok out =>
      obtain ⟨st2, c⟩ := out
      simp only [Except.map]
      exact ih st2 (⟨(downsample F s).size, c⟩ :: logs)

/-- C3: swapping the fixed and moving inputs produces exactly the swapped
pair of transforms: with a metric whose value query is symmetric in its two
roles and inputs of equal geometry, the swapped run's middle-to-fixed
transform is the original run's middle-to-moving transform and vice versa
(inverses and the level trace included), and failures agree as well. -/
theorem c3_swap_symmetry (cfg : SyNConfiguration) (F M : GridImage)
    (mu : MetricModel)
    (hval : ∀ k A TA B TB, mu.value k A TA B TB = mu.value k B TB A TA)
    (hsize : F.size = M.size) (hdim : F.dim = M.dim) :
    run cfg ⟨some M, some F, some mu⟩ =
      (run cfg ⟨some F, some M, some mu⟩).map swapResult := by
  have hpre : prerequisitesSatisfied cfg ⟨some M, some F, some mu⟩ =
      prerequisitesSatisfied cfg ⟨some F, some M, some mu⟩ := by
    simp [prerequisitesSatisfied]
  unfold run
  rw [hpre]
  by_cases hp : prerequisitesSatisfied cfg ⟨some F, some M, some mu⟩ = true
  · rw [hp]
    simp only [if_true]
    rw [show (M.dim == F.dim) = true from by simp [hdim],
      show (F.dim == M.dim) = true from by simp [hdim]]
    simp only [if_true]
    have hn0 : (downsample M (cfg.shrinkFactors.headD 1)).size =
        (downsample F (cfg.shrinkFactors.headD 1)).size := by
      simp [downsample, hsize]
    rw [hn0]
    exact runLevels_swap cfg mu hval F M hsize
      (cfg.shrinkFactors.zip cfg.numberOfIterationsPerLevel)
      ⟨zeroDField ((downsample F (cfg.shrinkFactors.headD 1)).size),
       zeroDField ((downsample F (cfg.shrinkFactors.headD 1)).size),
       zeroDField ((downsample F (cfg.shrinkFactors.headD 1)).size),
       zeroDField ((downsample F (cfg.shrinkFactors.headD 1)).size)⟩ []
  · rw [eq_false_of_ne_true hp]
    simp [Except.map]

theorem c3_swap_symmetry_witness :
    run smallCfg ⟨some steepImage, some rampImage, some diffMetric⟩ =
      (run smallCfg ⟨some rampImage, some steepImage, some diffMetric⟩).map
        swapResult :=
  c3_swap_symmetry smallCfg rampImage steepImage diffMetric
    (fun _ _ _ _ _ => rfl) rfl rfl
